import Mathlib

/-!
Shallow embedding of the PSoC USBUART driver
(src/usbuart_driver.c and src/usbuart_driver.h) and proofs about it.

The ring-buffer container (ringbuf.c) and the message-framing header
(usbuart_driver_msg.h) are external to src/: both are modelled from the
specification's description of their interface (a byte FIFO providing
construct, reset, count-used, count-free, is-empty, copy-in, copy-out,
peek-at-offset, find-byte-from-offset, discard-N-from-tail; and the frame
constants MSG_HEADER_LENGTH = 2, MSG_FOOTER_LENGTH = 1,
MSG_STRUCTURE_LENGTH = 3).

A ring buffer's content is a `List Nat` of byte values, front of the list
being the next byte to be consumed (the tail pointer of the C ring).
Machine-width effects (uint8 truncation) are written explicitly as `% 256`.
-/

namespace Usbuart

/-- Constant RX_BUFFER_SIZE from usbuart_driver.h (RX ring capacity). -/
def RX_BUFFER_SIZE : Nat := 256

/-- Constant TX_BUFFER_SIZE from usbuart_driver.h (TX ring capacity). -/
def TX_BUFFER_SIZE : Nat := 256

/-- Constant USBUART_MAX_PACKET_SIZE from usbuart_driver.c. -/
def USBUART_MAX_PACKET_SIZE : Nat := 64

/-- Constant TX_MAX_REJECT from usbuart_driver.c. -/
def TX_MAX_REJECT : Nat := 8

/-- Constant USBUART_LINE_TERMINATOR from usbuart_driver.h (the byte of the
character \n). -/
def USBUART_LINE_TERMINATOR : Nat := 10

/-- Modelled from the spec: usbuart_driver_msg.h is not in src/.
MSG_HEADER_LENGTH = 2 (first byte + length byte). -/
def MSG_HEADER_LENGTH : Nat := 2

/-- Modelled from the spec: usbuart_driver_msg.h is not in src/.
MSG_FOOTER_LENGTH = 1 (last byte). -/
def MSG_FOOTER_LENGTH : Nat := 1

/-- Modelled from the spec: usbuart_driver_msg.h is not in src/.
MSG_STRUCTURE_LENGTH = 3 (header + footer). -/
def MSG_STRUCTURE_LENGTH : Nat := 3

/-- Modelled from the spec: usbuart_driver_msg.h is not in src/.
Offset of the LENGTH byte from MSG_FIRST_BYTE; the frame layout
[FIRST_BYTE][LENGTH][payload][LAST_BYTE] puts LENGTH at offset 1 from the
first byte, and usbuart_getmsg reads the length with
ringbuf_peek(_rxBuffer, MSG_LENGTH_OFFS_FROM_FIRST_BYTE). -/
def MSG_LENGTH_OFFS_FROM_FIRST_BYTE : Nat := 1

/-- Configuration of the user-chosen framing sentinels from
usbuart_driver_msg.h (user-defined per the spec's constants table). -/
structure MsgConfig where
  MSG_FIRST_BYTE : Nat
  MSG_LAST_BYTE : Nat
deriving DecidableEq, Repr

/-! Ring-buffer primitives, modelled from the spec's interface list.
The C ring stores bytes between a head (write) and tail (read) pointer; the
model is the list of stored bytes, consumed from the front. -/

/-- Modelled from the spec: count-used primitive of the ring buffer. -/
def ringbuf_bytes_used (rb : List Nat) : Nat := rb.length

/-- Modelled from the spec: count-free primitive of the ring buffer; the
capacity is a parameter (RX_BUFFER_SIZE or TX_BUFFER_SIZE here). -/
def ringbuf_bytes_free (cap : Nat) (rb : List Nat) : Nat := cap - rb.length

/-- Modelled from the spec: is-empty primitive of the ring buffer. -/
def ringbuf_is_empty (rb : List Nat) : Bool := rb.isEmpty

/-- Modelled from the spec: reset primitive (ring becomes empty). -/
def ringbuf_reset : List Nat := []

/-- Modelled from the spec: copy-in primitive (ringbuf_memcpy_into):
append the given bytes at the write end. -/
def ringbuf_memcpy_into (rb : List Nat) (src : List Nat) : List Nat :=
  rb ++ src

/-- Modelled from the spec: copy-out primitive (ringbuf_memcpy_from):
remove `count` bytes from the read end; returns the bytes copied out and
the remaining ring content. -/
def ringbuf_memcpy_from (rb : List Nat) (count : Nat) : List Nat × List Nat :=
  (rb.take count, rb.drop count)

/-- Modelled from the spec: discard-N-from-tail primitive
(ringbuf_remove_from_tail): drop `n` bytes from the read end. -/
def ringbuf_remove_from_tail (rb : List Nat) (n : Nat) : List Nat :=
  rb.drop n

/-- Modelled from the spec: peek-at-offset primitive (ringbuf_peek):
read the byte at `offset` from the read end without consuming. -/
def ringbuf_peek (rb : List Nat) (offset : Nat) : Nat :=
  rb.getD offset 0

/-- Peek with a signed offset: usbuart_getmsg computes the footer offset as
msg_length - 1 on C integers, which is -1 when msg_length = 0. An offset
outside the used region reads unspecified memory; the model returns 0 for
such reads and `msgFooterOffsInRange` states when the read was in range. -/
def ringbuf_peekI (rb : List Nat) (offset : Int) : Nat :=
  if 0 ≤ offset ∧ offset < (rb.length : Int) then rb.getD offset.toNat 0 else 0

/-- Signed footer offset msg_length - 1 computed by usbuart_getmsg before
the MSG_LAST_BYTE comparison. -/
def msgFooterOffs (msg_length : Nat) : Int :=
  (msg_length : Int) - 1

/-- Whether the footer peek of usbuart_getmsg falls inside the used region
of the ring. -/
def msgFooterOffsInRange (rb : List Nat) (msg_length : Nat) : Prop :=
  0 ≤ msgFooterOffs msg_length ∧ msgFooterOffs msg_length < (rb.length : Int)

/-- Modelled from the spec: find-byte-from-offset primitive
(ringbuf_findchr): offset of the first occurrence of byte `c` at or after
`offset`, or bytes-used when absent. -/
def ringbuf_findchr (rb : List Nat) (c : Nat) (offset : Nat) : Nat :=
  offset + List.findIdx (fun b => b = c) (rb.drop offset)

/-! The foreground read operations of the framing API
(usbuart_driver.c). The `data` output pointer is modelled by the `out`
field of the result; a NULL `data` makes each C function return 0 without
touching the ring, which is not modelled (the theorems speak about the
non-null case the claims are about). -/

/-- Result of a foreground read: the returned byte count (uint8), the bytes
copied to the caller's buffer, and the RX ring content after the call. -/
structure ReadResult where
  ret : Nat
  out : List Nat
  rx : List Nat
deriving DecidableEq, Repr

/-- Embedding of usbuart_getch (usbuart_driver.c, lines 123-144): read one
byte from the RX ring, or return 0 when the ring is empty. -/
def usbuart_getch (rx : List Nat) : ReadResult :=
  if ringbuf_is_empty rx then ⟨0, [], rx⟩
  else
    let r := ringbuf_memcpy_from rx 1
    ⟨1, r.1, r.2⟩

/-- Embedding of usbuart_getline (usbuart_driver.c, lines 205-232): look
for USBUART_LINE_TERMINATOR; when absent return 0 leaving the ring alone,
otherwise copy the bytes before it out, discard the terminator, and return
the number of bytes copied (a uint8, hence % 256). -/
def usbuart_getline (rx : List Nat) : ReadResult :=
  if ringbuf_is_empty rx then ⟨0, [], rx⟩
  else
    let line_term_offs := ringbuf_findchr rx USBUART_LINE_TERMINATOR 0
    if line_term_offs = ringbuf_bytes_used rx then ⟨0, [], rx⟩
    else
      let r := ringbuf_memcpy_from rx line_term_offs
      let rx2 := ringbuf_remove_from_tail r.2 1
      ⟨line_term_offs % 256, r.1, rx2⟩

/-- Embedding of usbuart_putch (usbuart_driver.c, lines 159-188), at the
point where the wait loop has observed ringbuf_bytes_free >= 1: one byte is
appended to the TX ring. -/
def usbuart_putch (tx : List Nat) (b : Nat) : List Nat :=
  ringbuf_memcpy_into tx [b]

/-- Embedding of usbuart_putline (usbuart_driver.c, lines 249-281), at the
point where the wait loop has observed ringbuf_bytes_free >= count + 1:
`data` (count = data.length bytes) then USBUART_LINE_TERMINATOR are
appended to the TX ring; count = 0 returns without writing. -/
def usbuart_putline (tx : List Nat) (data : List Nat) : List Nat :=
  if data.length = 0 then tx
  else ringbuf_memcpy_into (ringbuf_memcpy_into tx data) [USBUART_LINE_TERMINATOR]

/-- Embedding of the message-scan loop of usbuart_getmsg
(usbuart_driver.c, lines 312-340). Returns the msg_length of the located
frame (none when the scan gave up) together with the ring content after the
scan; the scan's removals (preamble discard, one-byte discard on footer
mismatch) stay in the ring even when the function then returns 0, exactly
as the C code mutates _rxBuffer in place. -/
def getmsgLoop (cfg : MsgConfig) (rx : List Nat) : Option Nat × List Nat :=
  let msg_first_byte_offs := ringbuf_findchr rx cfg.MSG_FIRST_BYTE 0
  if h : msg_first_byte_offs = ringbuf_bytes_used rx then (none, rx)
  else
    let rx1 := if msg_first_byte_offs ≠ 0 then
        ringbuf_remove_from_tail rx msg_first_byte_offs
      else rx
    if ringbuf_bytes_used rx1 < MSG_HEADER_LENGTH then (none, rx1)
    else
      let msg_length := ringbuf_peek rx1 MSG_LENGTH_OFFS_FROM_FIRST_BYTE
      if ringbuf_bytes_used rx1 < msg_length then (none, rx1)
      else
        let msg_last_byte := ringbuf_peekI rx1 (msgFooterOffs msg_length)
        if msg_last_byte = cfg.MSG_LAST_BYTE then (some msg_length, rx1)
        else getmsgLoop cfg (ringbuf_remove_from_tail rx1 MSG_LENGTH_OFFS_FROM_FIRST_BYTE)
termination_by rx.length
decreasing_by
  have hle : List.findIdx (fun b => decide (b = cfg.MSG_FIRST_BYTE)) rx ≤ rx.length :=
    List.findIdx_le_length _
  unfold_let rx1 msg_first_byte_offs at *
  split <;>
    simp only [ringbuf_remove_from_tail, ringbuf_findchr, ringbuf_bytes_used,
      MSG_LENGTH_OFFS_FROM_FIRST_BYTE, List.drop_zero, Nat.zero_add,
      List.drop_drop, List.length_drop] at * <;>
    omega

/-- Embedding of usbuart_getmsg (usbuart_driver.c, lines 300-362): scan for
a frame with `getmsgLoop`; on success discard the MSG_HEADER_LENGTH header
bytes, copy msg_length - MSG_STRUCTURE_LENGTH bytes (uint8 arithmetic,
hence the % 256) to the caller, discard the MSG_FOOTER_LENGTH footer byte,
and return the copied count. -/
def usbuart_getmsg (cfg : MsgConfig) (rx : List Nat) : ReadResult :=
  if ringbuf_is_empty rx then ⟨0, [], rx⟩
  else
    match getmsgLoop cfg rx with
    | (none, rx1) => ⟨0, [], rx1⟩
    | (some msg_length, rx1) =>
      let rx2 := ringbuf_remove_from_tail rx1 MSG_HEADER_LENGTH
      let count := (msg_length + 256 - MSG_STRUCTURE_LENGTH) % 256
      let r := ringbuf_memcpy_from rx2 count
      let rx4 := ringbuf_remove_from_tail r.2 MSG_FOOTER_LENGTH
      ⟨count, r.1, rx4⟩

/-- Embedding of usbuart_putmsg (usbuart_driver.c, lines 379-417), at the
point where the wait loop has observed ringbuf_bytes_free >= msg_length:
header [MSG_FIRST_BYTE, msg_length], payload, footer [MSG_LAST_BYTE] are
appended; msg_length = count + MSG_STRUCTURE_LENGTH on a uint8. -/
def usbuart_putmsg (cfg : MsgConfig) (tx : List Nat) (data : List Nat) : List Nat :=
  if data.length = 0 then tx
  else
    let msg_length := (data.length + MSG_STRUCTURE_LENGTH) % 256
    ringbuf_memcpy_into
      (ringbuf_memcpy_into
        (ringbuf_memcpy_into tx [cfg.MSG_FIRST_BYTE, msg_length]) data)
      [cfg.MSG_LAST_BYTE]

/-! The transport servicer (interrupt context). -/

/-- Environment observed by one servicer tick: what the external USBFS/CDC
layer reports. USBUART_GetCount and USBUART_GetAll both refer to
`outFifo` (the pending OUT transfer's bytes); USBUART_DataIsReady and
USBUART_CDCIsReady are the two readiness flags. -/
structure UsbEnv where
  dataIsReady : Bool
  outFifo : List Nat
  cdcIsReady : Bool

/-- Embedding of _usbuart_rx_isr (usbuart_driver.c, lines 468-490): when
the OUT endpoint has data and it all fits in the RX ring's free space,
drain it through _tempBuffer into the RX ring; otherwise touch nothing.
Returns the new RX ring and whether the USB OUT FIFO was consumed
(USBUART_GetAll called). -/
def usbuart_rx_isr (env : UsbEnv) (rx : List Nat) : List Nat × Bool :=
  if env.dataIsReady then
    if env.outFifo.length ≤ ringbuf_bytes_free RX_BUFFER_SIZE rx then
      (ringbuf_memcpy_into rx env.outFifo, true)
    else (rx, false)
  else (rx, false)

/-- Embedding of _usbuart_tx_isr (usbuart_driver.c, lines 505-545), acting
on the TX ring, the ZLP-required flag and the TX-reject counter (a uint8,
hence the % 256 on the increment). Returns the new triple and the packet
handed to USBUART_PutData (none when nothing was transmitted). -/
def usbuart_tx_isr (env : UsbEnv) (tx : List Nat) (zlp : Bool) (reject : Nat) :
    List Nat × Bool × Nat × Option (List Nat) :=
  if ¬ ringbuf_is_empty tx ∨ zlp then
    if env.cdcIsReady then
      let count := min (ringbuf_bytes_used tx) USBUART_MAX_PACKET_SIZE
      let r := ringbuf_memcpy_from tx count
      (r.2, count = USBUART_MAX_PACKET_SIZE, 0, some r.1)
    else
      let reject1 := (reject + 1) % 256
      if reject1 > TX_MAX_REJECT then (ringbuf_reset, zlp, 0, none)
      else (tx, zlp, reject1, none)
  else (tx, zlp, reject, none)

/-- Whole driver state: the two rings, the ZLP-required flag and the
TX-reject counter (the module-level singletons of usbuart_driver.c). -/
structure DriverState where
  rx : List Nat
  tx : List Nat
  txZlpRequired : Bool
  txReject : Nat
deriving Repr

/-- Embedding of the tick ISR int_usbuart_isr (usbuart_driver.c, lines
67-70): _usbuart_rx_isr then _usbuart_tx_isr. Returns the new state,
whether the OUT FIFO was consumed, and the packet transmitted (if any). -/
def int_usbuart_isr (env : UsbEnv) (s : DriverState) :
    DriverState × Bool × Option (List Nat) :=
  let r := usbuart_rx_isr env s.rx
  let t := usbuart_tx_isr env s.tx s.txZlpRequired s.txReject
  (⟨r.1, t.1, t.2.1, t.2.2.1⟩, r.2, t.2.2.2)

/-- State after usbuart_init (usbuart_driver.c, lines 90-108): both rings
reset, ZLP flag false, reject counter 0, no IN transfer issued yet. -/
def initState : DriverState :=
  ⟨ringbuf_reset, ringbuf_reset, false, 0⟩

/-! Helper lemmas about List.findIdx, the engine behind ringbuf_findchr. -/

/-- When no byte of the list equals c, findIdx returns the length. -/
theorem findIdx_eq_length_of_forall_ne (c : Nat) (l : List Nat)
    (h : ∀ b ∈ l, b ≠ c) :
    List.findIdx (fun b => b = c) l = l.length := by
  induction l with
  | nil => simp
  | cons a t ih =>
    have ha : a ≠ c := h a (by simp)
    simp only [List.findIdx_cons, decide_eq_true_eq]
    simp [ha, ih fun b hb => h b (List.mem_cons_of_mem a hb)]

/-- When position k holds c and no earlier position does, findIdx returns
k. -/
theorem findIdx_eq_of_getD (c k : Nat) (l : List Nat) (hk : k < l.length)
    (hat : l.getD k 0 = c) (hbef : ∀ j, j < k → l.getD j 0 ≠ c) :
    List.findIdx (fun b => b = c) l = k := by
  induction l generalizing k with
  | nil => simp at hk
  | cons a t ih =>
    cases k with
    | zero =>
      simp only [List.getD_cons_zero] at hat
      simp [List.findIdx_cons, hat]
    | succ k =>
      have ha : a ≠ c := by
        have := hbef 0 (Nat.succ_pos k)
        simpa using this
      simp only [List.findIdx_cons, decide_eq_true_eq]
      simp only [List.length_cons, Nat.succ_lt_succ_iff] at hk
      simp only [List.getD_cons_succ] at hat
      have hb : ∀ j, j < k → t.getD j 0 ≠ c := by
        intro j hj
        have := hbef (j + 1) (Nat.succ_lt_succ hj)
        simpa using this
      simp [ha, ih k hk hat hb]

/-- findIdx on s ++ [c] is s.length when c does not occur in s. -/
theorem findIdx_append_term (c : Nat) (s : List Nat) (h : ∀ b ∈ s, b ≠ c) :
    List.findIdx (fun b => b = c) (s ++ [c]) = s.length := by
  induction s with
  | nil => simp [List.findIdx_cons]
  | cons a t ih =>
    have ha : a ≠ c := h a (by simp)
    simp only [List.cons_append, List.findIdx_cons, decide_eq_true_eq]
    simp [ha, ih fun b hb => h b (List.mem_cons_of_mem a hb)]

/-! Characterizations of usbuart_getline. -/

/-- When the RX ring holds no LINE_TERMINATOR, usbuart_getline returns 0
and leaves the ring untouched. -/
theorem getline_of_not_mem (rx : List Nat)
    (h : ∀ b ∈ rx, b ≠ USBUART_LINE_TERMINATOR) :
    usbuart_getline rx = ⟨0, [], rx⟩ := by
  unfold usbuart_getline
  rcases rx with _ | ⟨a, t⟩
  · simp [ringbuf_is_empty]
  · have hfind : ringbuf_findchr (a :: t) USBUART_LINE_TERMINATOR 0 =
        (a :: t).length := by
      simp [ringbuf_findchr, findIdx_eq_length_of_forall_ne _ _ h]
    simp [ringbuf_is_empty, hfind, ringbuf_bytes_used]

/-- When the first LINE_TERMINATOR of the RX ring sits at offset k and the
ring content fits the ring's capacity, usbuart_getline returns k, delivers
the k bytes before the terminator, and drops exactly k + 1 bytes. -/
theorem getline_found (rx : List Nat) (k : Nat)
    (hcap : rx.length ≤ RX_BUFFER_SIZE) (hk : k < rx.length)
    (hat : rx.getD k 0 = USBUART_LINE_TERMINATOR)
    (hbef : ∀ j, j < k → rx.getD j 0 ≠ USBUART_LINE_TERMINATOR) :
    usbuart_getline rx = ⟨k, rx.take k, rx.drop (k + 1)⟩ := by
  have hne : rx ≠ [] := by
    intro hnil
    rw [hnil] at hk
    simp at hk
  have hfind : ringbuf_findchr rx USBUART_LINE_TERMINATOR 0 = k := by
    simp [ringbuf_findchr, findIdx_eq_of_getD _ _ _ hk hat hbef]
  have hmod : k % 256 = k :=
    Nat.mod_eq_of_lt (by simp [RX_BUFFER_SIZE] at hcap; omega)
  unfold usbuart_getline
  simp only [ringbuf_is_empty, List.isEmpty_eq_true, hne, if_false, hfind,
    ringbuf_bytes_used, Nat.ne_of_lt hk, if_false,
    ringbuf_memcpy_from, ringbuf_remove_from_tail, hmod]
  rw [List.drop_drop]

/-- C4 theorem: usbuart_getline returns 0 leaving the ring unchanged when
no LINE_TERMINATOR is present; when the first terminator is at offset k it
delivers the k preceding bytes, removes exactly k + 1 bytes and returns k,
so it never returns non-zero without removing returned + 1 bytes. -/
theorem getline_postcondition (rx : List Nat)
    (hcap : rx.length ≤ RX_BUFFER_SIZE) :
    ((∀ b ∈ rx, b ≠ USBUART_LINE_TERMINATOR) →
      usbuart_getline rx = ⟨0, [], rx⟩) ∧
    (∀ k, k < rx.length → rx.getD k 0 = USBUART_LINE_TERMINATOR →
      (∀ j, j < k → rx.getD j 0 ≠ USBUART_LINE_TERMINATOR) →
      usbuart_getline rx = ⟨k, rx.take k, rx.drop (k + 1)⟩ ∧
      rx.length = (usbuart_getline rx).ret + 1 + (usbuart_getline rx).rx.length) := by
  refine ⟨getline_of_not_mem rx, ?_⟩
  intro k hk hat hbef
  have heq := getline_found rx k hcap hk hat hbef
  refine ⟨heq, ?_⟩
  rw [heq]
  simp only [List.length_drop]
  omega

/-- Witness for getline_postcondition at the spec's S2-style input
H, i, newline, W. -/
theorem getline_postcondition_witness :
    [72, 105, 10, 87].length ≤ RX_BUFFER_SIZE ∧
    usbuart_getline [72, 105, 10, 87] = ⟨2, [72, 105], [87]⟩ :=
  ⟨by decide,
    ((getline_postcondition [72, 105, 10, 87] (by decide)).2 2 (by decide)
      (by decide) (by decide)).1⟩

/-- A ring whose first byte is the terminator: getline returns 0 but still
consumes exactly that byte. -/
theorem getline_leading_term (rx : List Nat)
    (h : rx.head? = some USBUART_LINE_TERMINATOR) :
    (usbuart_getline rx).ret = 0 ∧ (usbuart_getline rx).rx = rx.tail ∧
    rx.length = (usbuart_getline rx).rx.length + 1 := by
  rcases rx with _ | ⟨a, t⟩
  · simp at h
  · have ha : a = USBUART_LINE_TERMINATOR := by simpa using h
    subst ha
    have hfind : ringbuf_findchr (USBUART_LINE_TERMINATOR :: t)
        USBUART_LINE_TERMINATOR 0 = 0 := by
      simp [ringbuf_findchr, List.findIdx_cons]
    unfold usbuart_getline
    simp [ringbuf_is_empty, hfind, ringbuf_bytes_used, ringbuf_memcpy_from,
      ringbuf_remove_from_tail]

/-- C9 theorem: when the first byte of a non-empty RX ring is
LINE_TERMINATOR, usbuart_getline returns 0 — the same value as when no
terminator exists — yet still removes that terminator byte, so a zero
return does not imply the ring was untouched and an empty line is
indistinguishable from no line available. -/
theorem getline_empty_line (rx : List Nat)
    (h : rx.head? = some USBUART_LINE_TERMINATOR) :
    (usbuart_getline rx).ret = 0 ∧ (usbuart_getline rx).rx = rx.tail ∧
    rx.length = (usbuart_getline rx).rx.length + 1 :=
  getline_leading_term rx h

/-- Getline on a ring holding s followed by one LINE_TERMINATOR, with no
terminator inside s, yields s exactly and empties the ring. -/
theorem getline_append_term (s : List Nat)
    (hcap : s.length + 1 ≤ RX_BUFFER_SIZE)
    (h : ∀ b ∈ s, b ≠ USBUART_LINE_TERMINATOR) :
    usbuart_getline (s ++ [USBUART_LINE_TERMINATOR]) = ⟨s.length, s, []⟩ := by
  have hfind : ringbuf_findchr (s ++ [USBUART_LINE_TERMINATOR])
      USBUART_LINE_TERMINATOR 0 = s.length := by
    simp [ringbuf_findchr, findIdx_append_term _ _ h]
  have hne : s ++ [USBUART_LINE_TERMINATOR] ≠ [] := by simp
  have hlen : (s ++ [USBUART_LINE_TERMINATOR]).length = s.length + 1 := by simp
  have hmod : s.length % 256 = s.length :=
    Nat.mod_eq_of_lt (by simp [RX_BUFFER_SIZE] at hcap; omega)
  unfold usbuart_getline
  simp only [ringbuf_is_empty, List.isEmpty_eq_true, hne, if_false, hfind,
    ringbuf_bytes_used, hlen, Nat.ne_of_lt (Nat.lt_succ_self s.length),
    if_false, ringbuf_memcpy_from, ringbuf_remove_from_tail, hmod]
  rw [List.take_left, List.drop_left]
  rfl

/-- C5 theorem: for a non-empty line s free of LINE_TERMINATOR that fits
(with its terminator) in the free space of the empty TX ring, putline then
a loopback of all enqueued TX bytes into an empty RX ring then getline
returns exactly s with return value s.length. -/
theorem putline_getline_roundtrip (s : List Nat) (h1 : 1 ≤ s.length)
    (h2 : s.length + 1 ≤ ringbuf_bytes_free TX_BUFFER_SIZE ringbuf_reset)
    (h3 : ∀ b ∈ s, b ≠ USBUART_LINE_TERMINATOR) :
    usbuart_getline (usbuart_putline ringbuf_reset s) = ⟨s.length, s, []⟩ := by
  have hput : usbuart_putline ringbuf_reset s = s ++ [USBUART_LINE_TERMINATOR] := by
    unfold usbuart_putline
    rw [if_neg (by omega)]
    simp [ringbuf_memcpy_into, ringbuf_reset]
  rw [hput]
  apply getline_append_term s ?_ h3
  simpa [ringbuf_bytes_free, ringbuf_reset, TX_BUFFER_SIZE, RX_BUFFER_SIZE] using h2

/-- Witness for putline_getline_roundtrip on the two-byte line H, i. -/
theorem putline_getline_roundtrip_witness :
    (1 ≤ [72, 105].length ∧
      [72, 105].length + 1 ≤ ringbuf_bytes_free TX_BUFFER_SIZE ringbuf_reset) ∧
    usbuart_getline (usbuart_putline ringbuf_reset [72, 105]) = ⟨2, [72, 105], []⟩ :=
  ⟨⟨by decide, by decide⟩,
    putline_getline_roundtrip [72, 105] (by decide) (by decide) (by decide)⟩

/-- Witness for getline_empty_line at the concrete ring newline, A. -/
theorem getline_empty_line_witness :
    (usbuart_getline [10, 65]).ret = 0 ∧
    (usbuart_getline [10, 65]).rx = [10, 65].tail ∧
    [10, 65].length = (usbuart_getline [10, 65]).rx.length + 1 :=
  getline_empty_line [10, 65] (by decide)

/-! The servicer's RX side: all-or-nothing drain. -/

/-- C3 theorem: on a tick whose OUT endpoint reports data ready, when the
reported byte count fits the RX ring's free space all ready bytes are
appended to the ring and the USB FIFO is drained; when it does not fit the
ring is left unchanged and the FIFO is not read. -/
theorem rx_pump_all_or_nothing (env : UsbEnv) (rx : List Nat)
    (h : env.dataIsReady = true) :
    (env.outFifo.length ≤ ringbuf_bytes_free RX_BUFFER_SIZE rx →
      usbuart_rx_isr env rx = (ringbuf_memcpy_into rx env.outFifo, true)) ∧
    (ringbuf_bytes_free RX_BUFFER_SIZE rx < env.outFifo.length →
      usbuart_rx_isr env rx = (rx, false)) := by
  constructor
  · intro hfit
    simp [usbuart_rx_isr, h, hfit]
  · intro hover
    have : ¬ env.outFifo.length ≤ ringbuf_bytes_free RX_BUFFER_SIZE rx := by omega
    simp [usbuart_rx_isr, h, this]

set_option maxRecDepth 4000 in
/-- Witness for rx_pump_all_or_nothing: the spec's S6 backpressure scenario
(RX ring full with 256 bytes, 10 bytes reported ready, ring unchanged and
FIFO undisturbed). -/
theorem rx_pump_all_or_nothing_witness :
    (UsbEnv.mk true (List.replicate 10 1) false).dataIsReady = true ∧
    ringbuf_bytes_free RX_BUFFER_SIZE (List.replicate 256 0) <
      (UsbEnv.mk true (List.replicate 10 1) false).outFifo.length ∧
    usbuart_rx_isr (UsbEnv.mk true (List.replicate 10 1) false)
      (List.replicate 256 0) = (List.replicate 256 0, false) :=
  ⟨by decide, by decide,
    (rx_pump_all_or_nothing (UsbEnv.mk true (List.replicate 10 1) false)
      (List.replicate 256 0) (by decide)).2 (by decide)⟩

/-! The servicer's TX side: the stall-recovery purge and the ZLP flag. -/

/-- C10 theorem: when the purge fires (pump condition holds through the ZLP
flag, IN endpoint not ready, reject counter at TX_MAX_REJECT) the tick
empties the TX ring and clears the reject counter but leaves the
ZLP-required flag untouched and transmits nothing; the next tick with the
IN endpoint ready then still hands an IN transfer — here the zero-length
packet — to the USB layer and clears the flag. -/
theorem purge_preserves_zlp (s : DriverState) (e1 e2 : UsbEnv)
    (hzlp : s.txZlpRequired = true) (hrej : s.txReject = TX_MAX_REJECT)
    (h1 : e1.cdcIsReady = false) (h2 : e2.cdcIsReady = true) :
    (int_usbuart_isr e1 s).1.txZlpRequired = s.txZlpRequired ∧
    (int_usbuart_isr e1 s).1.tx = [] ∧
    (int_usbuart_isr e1 s).1.txReject = 0 ∧
    (int_usbuart_isr e1 s).2.2 = none ∧
    (int_usbuart_isr e2 (int_usbuart_isr e1 s).1).2.2 = some [] ∧
    (int_usbuart_isr e2 (int_usbuart_isr e1 s).1).1.txZlpRequired = false := by
  have hstep1 : usbuart_tx_isr e1 s.tx s.txZlpRequired s.txReject =
      (ringbuf_reset, s.txZlpRequired, 0, none) := by
    unfold usbuart_tx_isr
    simp [hzlp, h1, hrej, TX_MAX_REJECT]
  have hfs : (int_usbuart_isr e1 s).1 =
      ⟨(usbuart_rx_isr e1 s.rx).1, [], s.txZlpRequired, 0⟩ := by
    simp [int_usbuart_isr, hstep1, ringbuf_reset]
  have hsent1 : (int_usbuart_isr e1 s).2.2 = none := by
    simp [int_usbuart_isr, hstep1]
  have hstep2 : usbuart_tx_isr e2 ([] : List Nat) s.txZlpRequired 0 =
      ([], false, 0, some []) := by
    unfold usbuart_tx_isr
    simp [hzlp, h2, ringbuf_is_empty, ringbuf_bytes_used, ringbuf_memcpy_from,
      USBUART_MAX_PACKET_SIZE]
  refine ⟨?_, ?_, ?_, hsent1, ?_, ?_⟩ <;>
    rw [hfs] <;> simp [int_usbuart_isr, hstep2]

/-- Witness for purge_preserves_zlp at a concrete purge state (flag set,
reject counter saturated, empty TX ring). -/
theorem purge_preserves_zlp_witness :
    ((DriverState.mk [] [] true TX_MAX_REJECT).txZlpRequired = true ∧
      (DriverState.mk [] [] true TX_MAX_REJECT).txReject = TX_MAX_REJECT) ∧
    (int_usbuart_isr (UsbEnv.mk false [] false)
        (DriverState.mk [] [] true TX_MAX_REJECT)).1.txZlpRequired =
      (DriverState.mk [] [] true TX_MAX_REJECT).txZlpRequired ∧
    (int_usbuart_isr (UsbEnv.mk false [] false)
        (DriverState.mk [] [] true TX_MAX_REJECT)).1.tx = [] ∧
    (int_usbuart_isr (UsbEnv.mk false [] false)
        (DriverState.mk [] [] true TX_MAX_REJECT)).1.txReject = 0 ∧
    (int_usbuart_isr (UsbEnv.mk false [] false)
        (DriverState.mk [] [] true TX_MAX_REJECT)).2.2 = none ∧
    (int_usbuart_isr (UsbEnv.mk false [] true)
        (int_usbuart_isr (UsbEnv.mk false [] false)
          (DriverState.mk [] [] true TX_MAX_REJECT)).1).2.2 = some [] ∧
    (int_usbuart_isr (UsbEnv.mk false [] true)
        (int_usbuart_isr (UsbEnv.mk false [] false)
          (DriverState.mk [] [] true TX_MAX_REJECT)).1).1.txZlpRequired = false :=
  ⟨⟨by decide, by decide⟩,
    purge_preserves_zlp (DriverState.mk [] [] true TX_MAX_REJECT)
      (UsbEnv.mk false [] false) (UsbEnv.mk false [] true)
      (by decide) (by decide) (by decide) (by decide)⟩

/-! Iterated servicer ticks, for the stall-recovery claim. -/

/-- Run one servicer tick per environment in the list, collecting the
packet (if any) handed to the USB layer at each tick. -/
def ticksRun : List UsbEnv → DriverState → DriverState × List (Option (List Nat))
  | [], s => (s, [])
  | e :: es, s =>
    let r := int_usbuart_isr e s
    let rest := ticksRun es r.1
    (rest.1, r.2.2 :: rest.2)

/-- One tick with the TX ring non-empty, the IN endpoint not ready and the
reject counter below the threshold: the counter increments, nothing else on
the TX side changes, nothing is transmitted. -/
theorem tick_not_ready_incr (e : UsbEnv) (s : DriverState)
    (h1 : s.tx ≠ []) (h2 : e.cdcIsReady = false)
    (h3 : s.txReject + 1 ≤ TX_MAX_REJECT) :
    (int_usbuart_isr e s).1.tx = s.tx ∧
    (int_usbuart_isr e s).1.txZlpRequired = s.txZlpRequired ∧
    (int_usbuart_isr e s).1.txReject = s.txReject + 1 ∧
    (int_usbuart_isr e s).2.2 = none := by
  have hmod : (s.txReject + 1) % 256 = s.txReject + 1 :=
    Nat.mod_eq_of_lt (by simp [TX_MAX_REJECT] at h3; omega)
  have hnogt : ¬ ((s.txReject + 1) % 256 > TX_MAX_REJECT) := by
    rw [hmod]; simp [TX_MAX_REJECT] at h3 ⊢; omega
  have hstep : usbuart_tx_isr e s.tx s.txZlpRequired s.txReject =
      (s.tx, s.txZlpRequired, (s.txReject + 1) % 256, none) := by
    unfold usbuart_tx_isr
    simp only [ringbuf_is_empty, List.isEmpty_eq_true, h1, not_false_eq_true,
      true_or, if_true, h2, Bool.false_eq_true, if_false, hnogt]
  simp [int_usbuart_isr, hstep, hmod]

/-- One tick with the pump condition satisfied, the IN endpoint not ready
and the reject counter saturated at TX_MAX_REJECT: the TX ring is purged,
the reject counter cleared, the ZLP flag untouched, nothing transmitted. -/
theorem tick_not_ready_purge (e : UsbEnv) (s : DriverState)
    (hpump : s.tx ≠ [] ∨ s.txZlpRequired = true) (h2 : e.cdcIsReady = false)
    (h3 : s.txReject = TX_MAX_REJECT) :
    (int_usbuart_isr e s).1.tx = [] ∧
    (int_usbuart_isr e s).1.txZlpRequired = s.txZlpRequired ∧
    (int_usbuart_isr e s).1.txReject = 0 ∧
    (int_usbuart_isr e s).2.2 = none := by
  have hcond : (¬ ringbuf_is_empty s.tx = true) ∨ s.txZlpRequired = true := by
    rcases hpump with h | h
    · exact Or.inl (by simp [ringbuf_is_empty, h])
    · exact Or.inr h
  have hstep : usbuart_tx_isr e s.tx s.txZlpRequired s.txReject =
      (ringbuf_reset, s.txZlpRequired, 0, none) := by
    unfold usbuart_tx_isr
    rw [if_pos hcond]
    simp [h2, h3, TX_MAX_REJECT]
  simp [int_usbuart_isr, hstep, ringbuf_reset]

/-- Consecutive not-ready ticks below the reject threshold leave the TX
ring and ZLP flag alone, add one to the reject counter per tick, and never
transmit. -/
theorem ticksRun_not_ready (envs : List UsbEnv) (s : DriverState)
    (h1 : s.tx ≠ []) (h2 : ∀ e ∈ envs, e.cdcIsReady = false)
    (h3 : envs.length + s.txReject ≤ TX_MAX_REJECT) :
    (ticksRun envs s).1.tx = s.tx ∧
    (ticksRun envs s).1.txZlpRequired = s.txZlpRequired ∧
    (ticksRun envs s).1.txReject = s.txReject + envs.length ∧
    ∀ o ∈ (ticksRun envs s).2, o = none := by
  induction envs generalizing s with
  | nil => simp [ticksRun]
  | cons e es ih =>
    have he : e.cdcIsReady = false := h2 e (by simp)
    have hlen : es.length + 1 + s.txReject ≤ TX_MAX_REJECT := by simpa using h3
    obtain ⟨ht, hz, hr, hs⟩ := tick_not_ready_incr e s h1 he (by omega)
    obtain ⟨iht, ihz, ihr, ihs⟩ := ih (int_usbuart_isr e s).1
      (by rw [ht]; exact h1)
      (fun x hx => h2 x (List.mem_cons_of_mem e hx))
      (by rw [hr]; omega)
    refine ⟨?_, ?_, ?_, ?_⟩
    · simp only [ticksRun]
      rw [iht, ht]
    · simp only [ticksRun]
      rw [ihz, hz]
    · simp only [ticksRun]
      rw [ihr, hr]
      simp [Nat.add_assoc, Nat.add_comm 1 es.length]
    · simp only [ticksRun, List.mem_cons]
      rintro o (rfl | ho)
      · exact hs
      · exact ihs o ho

/-- ticksRun distributes over list append. -/
theorem ticksRun_append (l1 l2 : List UsbEnv) (s : DriverState) :
    ticksRun (l1 ++ l2) s =
      ((ticksRun l2 (ticksRun l1 s).1).1,
        (ticksRun l1 s).2 ++ (ticksRun l2 (ticksRun l1 s).1).2) := by
  induction l1 generalizing s with
  | nil => simp [ticksRun]
  | cons e es ih => simp [ticksRun, ih]

/-- C2 theorem: from any state with a non-empty TX ring and reject counter
zero, TX_MAX_REJECT + 1 = 9 consecutive ticks with the IN endpoint never
ready increment the reject counter each tick without transmitting or
touching the ring; the 9th tick (the first on which the incremented counter
exceeds TX_MAX_REJECT) resets the TX ring to empty and the counter to 0,
and no bytes were ever handed to the USB layer. -/
theorem tx_stall_recovery (s : DriverState) (envs : List UsbEnv)
    (htx : s.tx ≠ []) (hrej : s.txReject = 0)
    (hlen : envs.length = TX_MAX_REJECT + 1)
    (hready : ∀ e ∈ envs, e.cdcIsReady = false) :
    (∀ k, k ≤ TX_MAX_REJECT →
      (ticksRun (envs.take k) s).1.tx = s.tx ∧
      (ticksRun (envs.take k) s).1.txReject = k ∧
      ∀ o ∈ (ticksRun (envs.take k) s).2, o = none) ∧
    (ticksRun envs s).1.tx = [] ∧
    (ticksRun envs s).1.txReject = 0 ∧
    ∀ o ∈ (ticksRun envs s).2, o = none := by
  have hmax : TX_MAX_REJECT = 8 := rfl
  have hpart : ∀ k, k ≤ TX_MAX_REJECT →
      (ticksRun (envs.take k) s).1.tx = s.tx ∧
      (ticksRun (envs.take k) s).1.txZlpRequired = s.txZlpRequired ∧
      (ticksRun (envs.take k) s).1.txReject = k ∧
      ∀ o ∈ (ticksRun (envs.take k) s).2, o = none := by
    intro k hk
    have hlen' : (envs.take k).length = k := by
      rw [List.length_take]
      omega
    have h := ticksRun_not_ready (envs.take k) s htx
      (fun e he => hready e (List.take_subset k envs he))
      (by rw [hlen', hrej]; omega)
    rw [hlen', hrej] at h
    simpa using h
  refine ⟨fun k hk => ⟨(hpart k hk).1, (hpart k hk).2.2.1, (hpart k hk).2.2.2⟩, ?_⟩
  obtain ⟨h8t, h8z, h8r, h8s⟩ := hpart TX_MAX_REJECT (Nat.le_refl _)
  have hdlen : (envs.drop TX_MAX_REJECT).length = 1 := by
    rw [List.length_drop]
    omega
  obtain ⟨e9, he9⟩ := List.length_eq_one.mp hdlen
  have hsplit : envs.take TX_MAX_REJECT ++ envs.drop TX_MAX_REJECT = envs :=
    List.take_append_drop _ _
  have hlast := tick_not_ready_purge e9 (ticksRun (envs.take TX_MAX_REJECT) s).1
    (Or.inl (by rw [h8t]; exact htx))
    (hready e9 (by rw [← hsplit]; exact List.mem_append_right _ (by rw [he9]; simp)))
    h8r
  obtain ⟨hpt, hpz, hpr, hps⟩ := hlast
  have hruns : ticksRun envs s =
      ((ticksRun [e9] (ticksRun (envs.take TX_MAX_REJECT) s).1).1,
        (ticksRun (envs.take TX_MAX_REJECT) s).2 ++
          (ticksRun [e9] (ticksRun (envs.take TX_MAX_REJECT) s).1).2) := by
    conv_lhs => rw [← hsplit, he9]
    rw [ticksRun_append]
  rw [hruns]
  refine ⟨?_, ?_, ?_⟩
  · simp only [ticksRun]
    exact hpt
  · simp only [ticksRun]
    exact hpr
  · simp only [ticksRun, List.mem_append, List.mem_cons]
    rintro o (ho | (rfl | ho))
    · exact h8s o ho
    · exact hps
    · simp at ho

/-- Witness for tx_stall_recovery: the spec's S5 scenario, 100 queued bytes
and 9 ticks with the IN endpoint held not-ready. -/
theorem tx_stall_recovery_witness :
    ((DriverState.mk [] (List.replicate 100 55) false 0).tx ≠ [] ∧
      (DriverState.mk [] (List.replicate 100 55) false 0).txReject = 0 ∧
      (List.replicate 9 (UsbEnv.mk false [] false)).length = TX_MAX_REJECT + 1) ∧
    ((∀ k, k ≤ TX_MAX_REJECT →
      (ticksRun ((List.replicate 9 (UsbEnv.mk false [] false)).take k)
        (DriverState.mk [] (List.replicate 100 55) false 0)).1.tx =
          (DriverState.mk [] (List.replicate 100 55) false 0).tx ∧
      (ticksRun ((List.replicate 9 (UsbEnv.mk false [] false)).take k)
        (DriverState.mk [] (List.replicate 100 55) false 0)).1.txReject = k ∧
      ∀ o ∈ (ticksRun ((List.replicate 9 (UsbEnv.mk false [] false)).take k)
        (DriverState.mk [] (List.replicate 100 55) false 0)).2, o = none) ∧
    (ticksRun (List.replicate 9 (UsbEnv.mk false [] false))
      (DriverState.mk [] (List.replicate 100 55) false 0)).1.tx = [] ∧
    (ticksRun (List.replicate 9 (UsbEnv.mk false [] false))
      (DriverState.mk [] (List.replicate 100 55) false 0)).1.txReject = 0 ∧
    ∀ o ∈ (ticksRun (List.replicate 9 (UsbEnv.mk false [] false))
      (DriverState.mk [] (List.replicate 100 55) false 0)).2, o = none) :=
  ⟨⟨by decide, by decide, by decide⟩,
    tx_stall_recovery (DriverState.mk [] (List.replicate 100 55) false 0)
      (List.replicate 9 (UsbEnv.mk false [] false))
      (by decide) (by decide) (by decide)
      (by
        intro e he
        simp only [List.mem_replicate] at he
        rw [he.2])⟩

/-! Whole-system traces: servicer ticks interleaved with public-API calls,
for the ZLP-flag invariant. -/

/-- One step of the system: a servicer tick (with its USB environment) or a
completed public-API call. -/
inductive Op where
  | tick (env : UsbEnv)
  | getch
  | getline
  | getmsg
  | putch (b : Nat)
  | putline (data : List Nat)
  | putmsg (data : List Nat)

/-- Effect of one step on the driver state, together with the packet handed
to the USB layer when the step transmitted one. The blocking put
operations write only once their space condition holds (the state is
unchanged while they are still spinning with interrupts re-enabled). -/
def stepOp (cfg : MsgConfig) (s : DriverState) : Op → DriverState × Option (List Nat)
  | .tick env => ((int_usbuart_isr env s).1, (int_usbuart_isr env s).2.2)
  | .getch => ({ s with rx := (usbuart_getch s.rx).rx }, none)
  | .getline => ({ s with rx := (usbuart_getline s.rx).rx }, none)
  | .getmsg => ({ s with rx := (usbuart_getmsg cfg s.rx).rx }, none)
  | .putch b =>
    ({ s with tx := if 1 ≤ ringbuf_bytes_free TX_BUFFER_SIZE s.tx then
        usbuart_putch s.tx b else s.tx }, none)
  | .putline data =>
    ({ s with tx := if data.length + 1 ≤ ringbuf_bytes_free TX_BUFFER_SIZE s.tx then
        usbuart_putline s.tx data else s.tx }, none)
  | .putmsg data =>
    ({ s with tx := if (data.length + MSG_STRUCTURE_LENGTH) % 256 ≤
          ringbuf_bytes_free TX_BUFFER_SIZE s.tx then
        usbuart_putmsg cfg s.tx data else s.tx }, none)

/-- Fold one step into a pair of current state and most recent transmitted
packet (none while no IN transfer has been issued yet). -/
def runStep (cfg : MsgConfig) (p : DriverState × Option (List Nat)) (op : Op) :
    DriverState × Option (List Nat) :=
  match stepOp cfg p.1 op with
  | (s1, some pkt) => (s1, some pkt)
  | (s1, none) => (s1, p.2)

/-- Run a trace of steps from the freshly initialized driver, tracking the
most recent IN transfer handed to the USB layer. -/
def runOps (cfg : MsgConfig) (ops : List Op) : DriverState × Option (List Nat) :=
  ops.foldl (runStep cfg) (initState, none)

/-- The ZLP biconditional as a predicate on (state, last transfer). -/
def ZlpInv (p : DriverState × Option (List Nat)) : Prop :=
  (p.1.txZlpRequired = true ↔
    ∃ q, p.2 = some q ∧ q.length = USBUART_MAX_PACKET_SIZE)

/-- Every invocation of the TX pump either transmits nothing and leaves the
ZLP flag as it was, or hands a packet to the USB layer and sets the flag
exactly when that packet carries USBUART_MAX_PACKET_SIZE bytes. -/
theorem tx_isr_zlp_characterization (env : UsbEnv) (tx : List Nat)
    (zlp : Bool) (reject : Nat) :
    ((usbuart_tx_isr env tx zlp reject).2.2.2 = none ∧
      (usbuart_tx_isr env tx zlp reject).2.1 = zlp) ∨
    (∃ pkt, (usbuart_tx_isr env tx zlp reject).2.2.2 = some pkt ∧
      ((usbuart_tx_isr env tx zlp reject).2.1 = true ↔
        pkt.length = USBUART_MAX_PACKET_SIZE)) := by
  unfold usbuart_tx_isr
  by_cases hpump : (¬ ringbuf_is_empty tx = true) ∨ zlp = true
  · rw [if_pos hpump]
    by_cases hready : env.cdcIsReady = true
    · rw [if_pos hready]
      refine Or.inr ⟨_, rfl, ?_⟩
      simp only [ringbuf_memcpy_from, ringbuf_bytes_used, List.length_take,
        decide_eq_true_eq]
      omega
    · rw [if_neg hready]
      by_cases hover : (reject + 1) % 256 > TX_MAX_REJECT
      · rw [if_pos hover]
        exact Or.inl ⟨rfl, rfl⟩
      · rw [if_neg hover]
        exact Or.inl ⟨rfl, rfl⟩
  · rw [if_neg hpump]
    exact Or.inl ⟨rfl, rfl⟩

/-- Every step preserves the ZLP biconditional: the only step that touches
the flag is a transmitting tick, which sets it to (packet length = 64). -/
theorem runStep_zlpInv (cfg : MsgConfig) (p : DriverState × Option (List Nat))
    (op : Op) (h : ZlpInv p) : ZlpInv (runStep cfg p op) := by
  cases op with
  | tick env =>
    have hsplit : stepOp cfg p.1 (Op.tick env) =
        ((int_usbuart_isr env p.1).1, (int_usbuart_isr env p.1).2.2) := rfl
    have hz : (int_usbuart_isr env p.1).1.txZlpRequired =
        (usbuart_tx_isr env p.1.tx p.1.txZlpRequired p.1.txReject).2.1 := rfl
    have hsent : (int_usbuart_isr env p.1).2.2 =
        (usbuart_tx_isr env p.1.tx p.1.txZlpRequired p.1.txReject).2.2.2 := rfl
    rcases tx_isr_zlp_characterization env p.1.tx p.1.txZlpRequired p.1.txReject with
      ⟨hnone, hkeep⟩ | ⟨pkt, hsome, hiff⟩
    · have hsent' : (int_usbuart_isr env p.1).2.2 = none := hsent.trans hnone
      unfold ZlpInv runStep
      rw [hsplit, hsent']
      simp only []
      rw [hz, hkeep]
      exact h
    · have hsent' : (int_usbuart_isr env p.1).2.2 = some pkt := hsent.trans hsome
      unfold ZlpInv runStep
      rw [hsplit, hsent']
      simp only []
      rw [hz]
      constructor
      · intro hzt
        exact ⟨pkt, rfl, hiff.mp hzt⟩
      · rintro ⟨q, hq, hlen⟩
        obtain rfl : pkt = q := by simpa using hq
        exact hiff.mpr hlen
  | getch => simpa [runStep, stepOp, ZlpInv] using h
  | getline => simpa [runStep, stepOp, ZlpInv] using h
  | getmsg => simpa [runStep, stepOp, ZlpInv] using h
  | putch b => simpa [runStep, stepOp, ZlpInv] using h
  | putline data => simpa [runStep, stepOp, ZlpInv] using h
  | putmsg data => simpa [runStep, stepOp, ZlpInv] using h

/-- C1 theorem: after any trace of servicer ticks and public-API calls from
the initial state, the ZLP-required flag is true iff the most recent IN
transfer handed to the USB layer carried exactly USBUART_MAX_PACKET_SIZE
bytes (and some transfer has been issued). -/
theorem zlp_flag_iff_last_transfer_full (cfg : MsgConfig) (ops : List Op) :
    (runOps cfg ops).1.txZlpRequired = true ↔
      ∃ q, (runOps cfg ops).2 = some q ∧
        q.length = USBUART_MAX_PACKET_SIZE := by
  have hinit : ZlpInv (initState, none) := by
    simp [ZlpInv, initState]
  have hgen : ∀ (l : List Op) (p : DriverState × Option (List Nat)),
      ZlpInv p → ZlpInv (l.foldl (runStep cfg) p) := by
    intro l
    induction l with
    | nil => intro p hp; exact hp
    | cons op l ih => intro p hp; exact ih _ (runStep_zlpInv cfg p op hp)
  exact hgen ops (initState, none) hinit

/-! The message scanner: characterizations and the footer-mismatch
behavior. -/

/-- When the scanner gives up because MSG_FIRST_BYTE never occurs in the
ring, usbuart_getmsg returns 0 with the ring unchanged. -/
theorem getmsg_of_not_mem (cfg : MsgConfig) (rx : List Nat)
    (h : ∀ b ∈ rx, b ≠ cfg.MSG_FIRST_BYTE) :
    usbuart_getmsg cfg rx = ⟨0, [], rx⟩ := by
  by_cases hemp : rx = []
  · subst hemp
    simp [usbuart_getmsg, ringbuf_is_empty]
  · have hfind : ringbuf_findchr rx cfg.MSG_FIRST_BYTE 0 = rx.length := by
      simp [ringbuf_findchr, findIdx_eq_length_of_forall_ne _ _ h]
    have hloop : getmsgLoop cfg rx = (none, rx) := by
      rw [getmsgLoop.eq_def]
      simp [hfind, ringbuf_bytes_used]
    unfold usbuart_getmsg
    rw [hloop]
    simp [ringbuf_is_empty, hemp]

/-- One iteration of the scanner when MSG_FIRST_BYTE already sits at the
front of the ring and both length guards pass: the outcome is decided by
the footer comparison, a mismatch discarding MSG_LENGTH_OFFS_FROM_FIRST_BYTE
bytes before rescanning. -/
theorem getmsgLoop_step_front (cfg : MsgConfig) (a : Nat) (t : List Nat)
    (ha : a = cfg.MSG_FIRST_BYTE)
    (h2 : MSG_HEADER_LENGTH ≤ (a :: t).length)
    (h3 : ringbuf_peek (a :: t) MSG_LENGTH_OFFS_FROM_FIRST_BYTE ≤ (a :: t).length) :
    getmsgLoop cfg (a :: t) =
      if ringbuf_peekI (a :: t)
          (msgFooterOffs (ringbuf_peek (a :: t) MSG_LENGTH_OFFS_FROM_FIRST_BYTE)) =
          cfg.MSG_LAST_BYTE then
        (some (ringbuf_peek (a :: t) MSG_LENGTH_OFFS_FROM_FIRST_BYTE), a :: t)
      else
        getmsgLoop cfg
          (ringbuf_remove_from_tail (a :: t) MSG_LENGTH_OFFS_FROM_FIRST_BYTE) := by
  have hfind : ringbuf_findchr (a :: t) cfg.MSG_FIRST_BYTE 0 = 0 := by
    simp [ringbuf_findchr, List.findIdx_cons, ha]
  rw [getmsgLoop.eq_def]
  simp only [hfind, ringbuf_bytes_used]
  rw [dif_neg (by simp)]
  simp only [ne_eq, not_true_eq_false, if_false, reduceIte]
  rw [if_neg (Nat.not_lt.mpr h2), if_neg (Nat.not_lt.mpr h3)]

/-- C6 counterexample: usbuart_getline on a ring holding only a terminator
returns 0 yet consumes the byte, and usbuart_getmsg (sentinels 1 and 4)
returns 0 on the ring 255, 1 yet discards the preamble byte 255 — both
calls return 0 while changing the RX ring. -/
theorem frame_read_consumption_cex :
    (usbuart_getline [USBUART_LINE_TERMINATOR]).ret = 0 ∧
    (usbuart_getline [USBUART_LINE_TERMINATOR]).rx ≠ [USBUART_LINE_TERMINATOR] ∧
    (usbuart_getmsg (MsgConfig.mk 1 4) [255, 1]).ret = 0 ∧
    (usbuart_getmsg (MsgConfig.mk 1 4) [255, 1]).rx ≠ [255, 1] := by
  have hmsg : usbuart_getmsg (MsgConfig.mk 1 4) [255, 1] = ⟨0, [], [1]⟩ := by
    simp [usbuart_getmsg, getmsgLoop, ringbuf_findchr, ringbuf_is_empty,
      ringbuf_bytes_used, ringbuf_peek, ringbuf_peekI, msgFooterOffs,
      ringbuf_remove_from_tail, ringbuf_memcpy_from, MSG_HEADER_LENGTH,
      MSG_LENGTH_OFFS_FROM_FIRST_BYTE, MSG_STRUCTURE_LENGTH, MSG_FOOTER_LENGTH,
      List.findIdx, List.findIdx.go]
  refine ⟨by decide, by decide, ?_, ?_⟩ <;> rw [hmsg] <;> decide

/-- C6 theorem (amended): a read that finds no scan sentinel consumes
nothing — getline with no LINE_TERMINATOR in the ring, and getmsg with no
MSG_FIRST_BYTE in the ring, return 0 with the ring unchanged — and a
getline that returns n > 0 removes exactly n + 1 bytes; but scan progress
is consumed even on a 0 return: getline removes a leading terminator (an
empty line), and getmsg discards preamble bytes ahead of MSG_FIRST_BYTE. -/
theorem frame_read_consumption (cfg : MsgConfig) (rx : List Nat) :
    ((∀ b ∈ rx, b ≠ USBUART_LINE_TERMINATOR) →
      usbuart_getline rx = ⟨0, [], rx⟩) ∧
    ((∀ b ∈ rx, b ≠ cfg.MSG_FIRST_BYTE) →
      usbuart_getmsg cfg rx = ⟨0, [], rx⟩) ∧
    (rx.head? = some USBUART_LINE_TERMINATOR →
      (usbuart_getline rx).ret = 0 ∧ (usbuart_getline rx).rx = rx.tail) ∧
    (∀ k, k < rx.length → rx.length ≤ RX_BUFFER_SIZE →
      rx.getD k 0 = USBUART_LINE_TERMINATOR →
      (∀ j, j < k → rx.getD j 0 ≠ USBUART_LINE_TERMINATOR) →
      (usbuart_getline rx).ret = k ∧
      rx.length = (usbuart_getline rx).ret + 1 + (usbuart_getline rx).rx.length) := by
  refine ⟨getline_of_not_mem rx, getmsg_of_not_mem cfg rx, ?_, ?_⟩
  · intro hhead
    obtain ⟨hret, htail, _⟩ := getline_leading_term rx hhead
    exact ⟨hret, htail⟩
  · intro k hk hcap hat hbef
    have heq := getline_found rx k hcap hk hat hbef
    rw [heq]
    simp only [List.length_drop]
    refine ⟨trivial, by omega⟩

/-- Witness for frame_read_consumption: both unchanged-cases at a concrete
terminator-free, sentinel-free ring. -/
theorem frame_read_consumption_witness :
    usbuart_getline [65, 66] = ⟨0, [], [65, 66]⟩ ∧
    usbuart_getmsg (MsgConfig.mk 1 4) [65, 66] = ⟨0, [], [65, 66]⟩ :=
  ⟨(frame_read_consumption (MsgConfig.mk 1 4) [65, 66]).1 (by decide),
    (frame_read_consumption (MsgConfig.mk 1 4) [65, 66]).2.1 (by decide)⟩

/-- Scan loop following the claim's words instead of the source: on footer
mismatch it discards the full MSG_HEADER_LENGTH header bytes (first byte
and length byte) before rescanning. Declared only to compare with the
source's getmsgLoop, which discards MSG_LENGTH_OFFS_FROM_FIRST_BYTE = 1
byte. -/
def getmsgLoopHeaderDiscard (cfg : MsgConfig) (rx : List Nat) : Option Nat × List Nat :=
  let msg_first_byte_offs := ringbuf_findchr rx cfg.MSG_FIRST_BYTE 0
  if h : msg_first_byte_offs = ringbuf_bytes_used rx then (none, rx)
  else
    let rx1 := if msg_first_byte_offs ≠ 0 then
        ringbuf_remove_from_tail rx msg_first_byte_offs
      else rx
    if ringbuf_bytes_used rx1 < MSG_HEADER_LENGTH then (none, rx1)
    else
      let msg_length := ringbuf_peek rx1 MSG_LENGTH_OFFS_FROM_FIRST_BYTE
      if ringbuf_bytes_used rx1 < msg_length then (none, rx1)
      else
        let msg_last_byte := ringbuf_peekI rx1 (msgFooterOffs msg_length)
        if msg_last_byte = cfg.MSG_LAST_BYTE then (some msg_length, rx1)
        else getmsgLoopHeaderDiscard cfg (ringbuf_remove_from_tail rx1 MSG_HEADER_LENGTH)
termination_by rx.length
decreasing_by
  have hle : List.findIdx (fun b => decide (b = cfg.MSG_FIRST_BYTE)) rx ≤ rx.length :=
    List.findIdx_le_length _
  unfold_let rx1 msg_first_byte_offs at *
  split <;>
    simp only [ringbuf_remove_from_tail, ringbuf_findchr, ringbuf_bytes_used,
      MSG_HEADER_LENGTH, List.drop_zero, Nat.zero_add,
      List.drop_drop, List.length_drop] at * <;>
    omega

/-- Getter built on the claim's-words scan loop, for the comparison. -/
def usbuart_getmsg_headerDiscard (cfg : MsgConfig) (rx : List Nat) : ReadResult :=
  if ringbuf_is_empty rx then ⟨0, [], rx⟩
  else
    match getmsgLoopHeaderDiscard cfg rx with
    | (none, rx1) => ⟨0, [], rx1⟩
    | (some msg_length, rx1) =>
      let rx2 := ringbuf_remove_from_tail rx1 MSG_HEADER_LENGTH
      let count := (msg_length + 256 - MSG_STRUCTURE_LENGTH) % 256
      let r := ringbuf_memcpy_from rx2 count
      let rx4 := ringbuf_remove_from_tail r.2 MSG_FOOTER_LENGTH
      ⟨count, r.1, rx4⟩

/-- C7 counterexample: sentinels FIRST = 2, LAST = 3, ring 2, 2, 4, 9, 3.
The first candidate frame's footer mismatches; the source's getmsg discards
one byte, rescans, finds the valid frame 2, 4, 9, 3 and returns payload 9,
while the claimed two-byte header discard would skip that frame and return
0 — so usbuart_getmsg does not discard MSG_HEADER_LENGTH bytes on
mismatch. -/
theorem getmsg_mismatch_discard_cex :
    (usbuart_getmsg (MsgConfig.mk 2 3) [2, 2, 4, 9, 3]).ret = 1 ∧
    (usbuart_getmsg (MsgConfig.mk 2 3) [2, 2, 4, 9, 3]).out = [9] ∧
    (usbuart_getmsg_headerDiscard (MsgConfig.mk 2 3) [2, 2, 4, 9, 3]).ret = 0 ∧
    (usbuart_getmsg_headerDiscard (MsgConfig.mk 2 3) [2, 2, 4, 9, 3]).out = [] := by
  have hsrc : usbuart_getmsg (MsgConfig.mk 2 3) [2, 2, 4, 9, 3] = ⟨1, [9], []⟩ := by
    simp [usbuart_getmsg, getmsgLoop, ringbuf_findchr, ringbuf_is_empty,
      ringbuf_bytes_used, ringbuf_peek, ringbuf_peekI, msgFooterOffs,
      ringbuf_remove_from_tail, ringbuf_memcpy_from, MSG_HEADER_LENGTH,
      MSG_LENGTH_OFFS_FROM_FIRST_BYTE, MSG_STRUCTURE_LENGTH, MSG_FOOTER_LENGTH,
      List.findIdx, List.findIdx.go]
  have hvar : usbuart_getmsg_headerDiscard (MsgConfig.mk 2 3) [2, 2, 4, 9, 3] =
      ⟨0, [], [4, 9, 3]⟩ := by
    simp [usbuart_getmsg_headerDiscard, getmsgLoopHeaderDiscard, ringbuf_findchr,
      ringbuf_is_empty, ringbuf_bytes_used, ringbuf_peek, ringbuf_peekI,
      msgFooterOffs, ringbuf_remove_from_tail, ringbuf_memcpy_from,
      MSG_HEADER_LENGTH, MSG_LENGTH_OFFS_FROM_FIRST_BYTE, MSG_STRUCTURE_LENGTH,
      MSG_FOOTER_LENGTH, List.findIdx, List.findIdx.go]
  rw [hsrc, hvar]
  exact ⟨rfl, rfl, rfl, rfl⟩

/-- C7 theorem (amended): when usbuart_getmsg finds MSG_FIRST_BYTE at the
front of the ring and the candidate frame's byte at offset LENGTH - 1 is
not MSG_LAST_BYTE, it discards MSG_LENGTH_OFFS_FROM_FIRST_BYTE = 1 byte
(the first byte only, not the whole header) and restarts the search from
the new front; the scan still advances by a positive number of bytes each
iteration, so a false FIRST_BYTE inside a payload cannot block a later
well-formed frame. -/
theorem getmsg_mismatch_discards_one (cfg : MsgConfig) (rx : List Nat)
    (h1 : rx.head? = some cfg.MSG_FIRST_BYTE)
    (h2 : MSG_HEADER_LENGTH ≤ ringbuf_bytes_used rx)
    (h3 : ringbuf_peek rx MSG_LENGTH_OFFS_FROM_FIRST_BYTE ≤ ringbuf_bytes_used rx)
    (h4 : ringbuf_peekI rx
        (msgFooterOffs (ringbuf_peek rx MSG_LENGTH_OFFS_FROM_FIRST_BYTE)) ≠
      cfg.MSG_LAST_BYTE) :
    getmsgLoop cfg rx =
      getmsgLoop cfg (ringbuf_remove_from_tail rx MSG_LENGTH_OFFS_FROM_FIRST_BYTE) ∧
    (ringbuf_remove_from_tail rx MSG_LENGTH_OFFS_FROM_FIRST_BYTE).length +
      MSG_LENGTH_OFFS_FROM_FIRST_BYTE = rx.length := by
  rcases rx with _ | ⟨a, t⟩
  · simp at h1
  · have ha : a = cfg.MSG_FIRST_BYTE := by simpa using h1
    have hstep := getmsgLoop_step_front cfg a t ha h2 h3
    rw [if_neg h4] at hstep
    refine ⟨hstep, ?_⟩
    simp only [ringbuf_remove_from_tail, List.length_drop, List.length_cons,
      MSG_LENGTH_OFFS_FROM_FIRST_BYTE]
    omega

/-- Witness for getmsg_mismatch_discards_one at the C7 counterexample's
ring: the mismatch step discards exactly one byte. -/
theorem getmsg_mismatch_discards_one_witness :
    (MSG_HEADER_LENGTH ≤ ringbuf_bytes_used [2, 2, 4, 9, 3] ∧
      ringbuf_peek [2, 2, 4, 9, 3] MSG_LENGTH_OFFS_FROM_FIRST_BYTE ≤
        ringbuf_bytes_used [2, 2, 4, 9, 3] ∧
      ringbuf_peekI [2, 2, 4, 9, 3]
          (msgFooterOffs (ringbuf_peek [2, 2, 4, 9, 3]
            MSG_LENGTH_OFFS_FROM_FIRST_BYTE)) ≠
        (MsgConfig.mk 2 3).MSG_LAST_BYTE) ∧
    getmsgLoop (MsgConfig.mk 2 3) [2, 2, 4, 9, 3] =
      getmsgLoop (MsgConfig.mk 2 3)
        (ringbuf_remove_from_tail [2, 2, 4, 9, 3] MSG_LENGTH_OFFS_FROM_FIRST_BYTE) ∧
    (ringbuf_remove_from_tail [2, 2, 4, 9, 3] MSG_LENGTH_OFFS_FROM_FIRST_BYTE).length +
      MSG_LENGTH_OFFS_FROM_FIRST_BYTE = [2, 2, 4, 9, 3].length :=
  ⟨⟨by decide, by decide, by decide⟩,
    getmsg_mismatch_discards_one (MsgConfig.mk 2 3) [2, 2, 4, 9, 3]
      (by decide) (by decide) (by decide) (by decide)⟩

/-- C8 theorem: when the ring starts with MSG_FIRST_BYTE, holds at least
MSG_HEADER_LENGTH bytes, the length byte L is below MSG_STRUCTURE_LENGTH
and the footer peek at the signed offset L - 1 matches MSG_LAST_BYTE,
usbuart_getmsg computes the payload count L - MSG_STRUCTURE_LENGTH on a
uint8, wrapping modulo 256 to at least 253, asks the ring for that many
bytes and returns the wrapped count; and for L = 0 the footer peek offset
is -1, outside the ring's used region. No error branch guards these
inputs. -/
theorem getmsg_malformed_length_wrap (cfg : MsgConfig) (rx : List Nat)
    (h1 : rx.head? = some cfg.MSG_FIRST_BYTE)
    (h2 : MSG_HEADER_LENGTH ≤ ringbuf_bytes_used rx)
    (hL : ringbuf_peek rx MSG_LENGTH_OFFS_FROM_FIRST_BYTE < MSG_STRUCTURE_LENGTH)
    (hfoot : ringbuf_peekI rx
        (msgFooterOffs (ringbuf_peek rx MSG_LENGTH_OFFS_FROM_FIRST_BYTE)) =
      cfg.MSG_LAST_BYTE) :
    (usbuart_getmsg cfg rx).ret =
      (ringbuf_peek rx MSG_LENGTH_OFFS_FROM_FIRST_BYTE + 256 -
        MSG_STRUCTURE_LENGTH) % 256 ∧
    253 ≤ (usbuart_getmsg cfg rx).ret ∧
    (usbuart_getmsg cfg rx).out =
      (ringbuf_remove_from_tail rx MSG_HEADER_LENGTH).take
        ((usbuart_getmsg cfg rx).ret) ∧
    (ringbuf_peek rx MSG_LENGTH_OFFS_FROM_FIRST_BYTE = 0 →
      ¬ msgFooterOffsInRange rx (ringbuf_peek rx MSG_LENGTH_OFFS_FROM_FIRST_BYTE)) := by
  rcases rx with _ | ⟨a, t⟩
  · simp at h1
  · have ha : a = cfg.MSG_FIRST_BYTE := by simpa using h1
    have hL' : ringbuf_peek (a :: t) MSG_LENGTH_OFFS_FROM_FIRST_BYTE ≤
        ringbuf_bytes_used (a :: t) := by
      simp only [MSG_STRUCTURE_LENGTH] at hL
      simp only [MSG_HEADER_LENGTH] at h2
      omega
    have hstep := getmsgLoop_step_front cfg a t ha h2 hL'
    rw [if_pos hfoot] at hstep
    have hgm : usbuart_getmsg cfg (a :: t) =
        ⟨(ringbuf_peek (a :: t) MSG_LENGTH_OFFS_FROM_FIRST_BYTE + 256 -
            MSG_STRUCTURE_LENGTH) % 256,
          (ringbuf_remove_from_tail (a :: t) MSG_HEADER_LENGTH).take
            ((ringbuf_peek (a :: t) MSG_LENGTH_OFFS_FROM_FIRST_BYTE + 256 -
              MSG_STRUCTURE_LENGTH) % 256),
          ringbuf_remove_from_tail
            ((ringbuf_remove_from_tail (a :: t) MSG_HEADER_LENGTH).drop
              ((ringbuf_peek (a :: t) MSG_LENGTH_OFFS_FROM_FIRST_BYTE + 256 -
                MSG_STRUCTURE_LENGTH) % 256))
            MSG_FOOTER_LENGTH⟩ := by
      unfold usbuart_getmsg
      rw [hstep]
      simp [ringbuf_is_empty, ringbuf_memcpy_from]
    have hmod : (ringbuf_peek (a :: t) MSG_LENGTH_OFFS_FROM_FIRST_BYTE + 256 -
        MSG_STRUCTURE_LENGTH) % 256 =
        ringbuf_peek (a :: t) MSG_LENGTH_OFFS_FROM_FIRST_BYTE + 253 := by
      simp only [MSG_STRUCTURE_LENGTH] at hL ⊢
      rw [Nat.mod_eq_of_lt] <;> omega
    refine ⟨by rw [hgm], ?_, by rw [hgm], ?_⟩
    · rw [hgm]
      simp only [hmod]
      omega
    · intro hzero
      rw [hzero]
      simp [msgFooterOffsInRange, msgFooterOffs]

/-- Witness for getmsg_malformed_length_wrap: sentinels FIRST = LAST = 5
and ring 5, 1 — the length byte 1 wraps to payload count 254 while no
payload bytes exist. -/
theorem getmsg_malformed_length_wrap_witness :
    (MSG_HEADER_LENGTH ≤ ringbuf_bytes_used [5, 1] ∧
      ringbuf_peek [5, 1] MSG_LENGTH_OFFS_FROM_FIRST_BYTE < MSG_STRUCTURE_LENGTH) ∧
    (usbuart_getmsg (MsgConfig.mk 5 5) [5, 1]).ret =
      (ringbuf_peek [5, 1] MSG_LENGTH_OFFS_FROM_FIRST_BYTE + 256 -
        MSG_STRUCTURE_LENGTH) % 256 ∧
    253 ≤ (usbuart_getmsg (MsgConfig.mk 5 5) [5, 1]).ret ∧
    (usbuart_getmsg (MsgConfig.mk 5 5) [5, 1]).out =
      (ringbuf_remove_from_tail [5, 1] MSG_HEADER_LENGTH).take
        ((usbuart_getmsg (MsgConfig.mk 5 5) [5, 1]).ret) ∧
    (ringbuf_peek [5, 1] MSG_LENGTH_OFFS_FROM_FIRST_BYTE = 0 →
      ¬ msgFooterOffsInRange [5, 1]
        (ringbuf_peek [5, 1] MSG_LENGTH_OFFS_FROM_FIRST_BYTE)) :=
  ⟨⟨by decide, by decide⟩,
    getmsg_malformed_length_wrap (MsgConfig.mk 5 5) [5, 1]
      (by decide) (by decide) (by decide) (by decide)⟩

end Usbuart
